import Mathlib

set_option maxRecDepth 20000

/-!
Verification development for `expo-native-dependency-hash` (`src/index.ts`).

The TypeScript source is shallowly embedded: pure computations become Lean
functions, filesystem / git / process interactions become explicit inputs
(the `Fs` structure below), process termination (`process.exit`) and
unhandled promise rejections become explicit outcomes (`POut`), and
`console.log` output is modelled as an explicit log of messages so that the
role of the `verbose` flag is visible in the embedding.

External collaborators that are not part of this repository are modelled at
the boundary the specification gives them:
  * `hashIt` models `createHash('md5').update(s).digest('hex')` from node's
    `crypto`: a deterministic, fixed-length digest rendered as lowercase
    hexadecimal.  The concrete compression is a stand-in (a 128-bit fold);
    only determinism and the output format are relied upon, matching the
    specification's statement that collision resistance is not required.
  * `collationKey` models the root-locale collation used by
    `String.prototype.localeCompare` on ASCII names: primary comparison is
    case-insensitive by code point, ties are broken lowercase-first.
  * the external `npx expo config` evaluation is an input (`Fs.expoEval`).
-/

namespace EndH

/-- Platforms, from the `Platform` enum in `src/index.ts`. -/
inductive Platform where
  | android
  | ios
  | all
deriving DecidableEq, Repr

/-- String rendering of a platform value (used in log messages). -/
def Platform.str : Platform → String
  | .android => "android"
  | .ios => "ios"
  | .all => "all"

/-- The optional `nativeDependencyHash` object a package may declare in its
`package.json` (`Module['nativeDependencyHash']` in the source). -/
structure NativeDependencyHash where
  ios : Option String := none
  android : Option String := none
  all : Option String := none
deriving DecidableEq, Repr

/-- JavaScript truthiness of an optional string: `undefined`, `null` and the
empty string are falsy. -/
def truthy : Option String → Bool
  | none => false
  | some s => s ≠ ""

/-- A discovered package, mirroring the `Module` type of the source. -/
structure Module where
  name : String
  path : String
  version : String
  isNativeAndroid : Bool
  isNativeIOS : Bool
  nativeDependencyHash : Option NativeDependencyHash := none
deriving DecidableEq, Repr

/-- The override value `m.nativeDependencyHash?.<platform>` read by
`getModuleIdentity` for a given platform. -/
def nativeHashOverride (p : Platform) (m : Module) : Option String :=
  match p with
  | .ios => m.nativeDependencyHash.bind (fun h => h.ios)
  | .android => m.nativeDependencyHash.bind (fun h => h.android)
  | .all => m.nativeDependencyHash.bind (fun h => h.all)

/-- `getModuleIdentity` from `src/index.ts` (lines 40-54): the module identity
string is `name@override` when the platform's override is truthy, otherwise
`name@version`. -/
def getModuleIdentity (platform : Platform) (m : Module) : String :=
  if platform = Platform.all ∧ truthy (nativeHashOverride .all m) then
    m.name ++ "@" ++ (nativeHashOverride .all m).getD ""
  else if platform = Platform.ios ∧ truthy (nativeHashOverride .ios m) then
    m.name ++ "@" ++ (nativeHashOverride .ios m).getD ""
  else if platform = Platform.android ∧ truthy (nativeHashOverride .android m) then
    m.name ++ "@" ++ (nativeHashOverride .android m).getD ""
  else
    m.name ++ "@" ++ m.version

/-- The sixteen lowercase hexadecimal digits. -/
def hexDigits : List Char := "0123456789abcdef".data

/-- Hexadecimal digit for a value below 16 (defaults to `'0'` out of range). -/
def hexDigit (n : Nat) : Char := hexDigits.getD n '0'

/-- Little-endian byte decomposition: the `n` low-order bytes of `x`. -/
def leBytes (n : Nat) (x : Nat) : List Nat :=
  (List.range n).map (fun i => x / 256 ^ i % 256)

/-- Render a list of byte values as lowercase hexadecimal, two digits each. -/
def bytesToHex (bs : List Nat) : String :=
  String.mk (bs.flatMap (fun b => [hexDigit (b / 16), hexDigit (b % 16)]))

/-- Modelled from the spec: the digest primitive
`createHash('md5').update(str).digest('hex')` of node's `crypto` module (not
part of this repository).  Per the specification it is a deterministic,
fixed-length hash of the input string rendered as lowercase hexadecimal;
collision resistance is explicitly not required.  It is modelled as a
128-bit multiplicative fold over the characters, rendered little-endian as
32 lowercase hexadecimal characters like md5's output. -/
def hashIt (s : String) : String :=
  bytesToHex (leBytes 16
    (s.data.foldl (fun a c => (a * 65599 + c.toNat + 1) % 2 ^ 128)
      (0x243f6a8885a308d3 : Nat)))

theorem hexDigit_mem_hexDigits (n : Nat) : hexDigit n ∈ hexDigits := by
  unfold hexDigit
  rcases h : hexDigits.getD n '0' with _
  by_cases hn : n < hexDigits.length
  · have := List.getD_eq_getElem hexDigits '0' hn
    rw [← h, this]
    exact hexDigits.getElem_mem hn
  · rw [← h, List.getD_eq_default]
    · simp [hexDigits]
    · omega

theorem bytesToHex_length (bs : List Nat) : (bytesToHex bs).length = 2 * bs.length := by
  unfold bytesToHex
  rw [String.length]
  induction bs with
  | nil => simp
  | cons b bs ih => simp_all [List.flatMap_cons]; omega

theorem leBytes_length (n x : Nat) : (leBytes n x).length = n := by
  simp [leBytes]

/-- The modelled digest is always 32 characters long. -/
theorem hashIt_length (s : String) : (hashIt s).length = 32 := by
  unfold hashIt
  rw [bytesToHex_length, leBytes_length]

/-- Every character of the modelled digest is a lowercase hexadecimal digit. -/
theorem hashIt_chars_hex (s : String) : ∀ c ∈ (hashIt s).data, c ∈ hexDigits := by
  unfold hashIt bytesToHex
  intro c hc
  simp only [String.mk] at hc
  rcases List.mem_flatMap.mp hc with ⟨b, _, hb⟩
  simp only [List.mem_cons, List.not_mem_nil, or_false] at hb
  rcases hb with h | h
  · exact h ▸ hexDigit_mem_hexDigits _
  · exact h ▸ hexDigit_mem_hexDigits _

/-- The modelled digest is never the empty string. -/
theorem hashIt_ne_empty (s : String) : hashIt s ≠ "" := by
  intro h
  have := hashIt_length s
  rw [h] at this
  simp [String.length] at this

theorem string_data_append (s t : String) : (s ++ t).data = s.data ++ t.data := by
  cases s
  cases t
  rfl

theorem string_append_left_cancel {s t u : String} (h : s ++ t = s ++ u) : t = u := by
  have hd := congrArg String.data h
  rw [string_data_append, string_data_append] at hd
  have := List.append_cancel_left hd
  cases t
  cases u
  exact congrArg String.mk this

/-- C1: for every module and platform, `getModuleIdentity` yields
`name@override` when the module declares a (non-empty) native-hash override
for exactly that platform, and `name@version` otherwise; for a module with
version `0.0.2` and `all`-override `Z` the `all` identity is `m@Z`
independently of the version, and changes exactly when the override does. -/
theorem getModuleIdentity_override_precedence :
    (∀ (p : Platform) (m : Module) (v : String),
      nativeHashOverride p m = some v → v ≠ "" →
      getModuleIdentity p m = m.name ++ "@" ++ v)
    ∧ (∀ (p : Platform) (m : Module),
      truthy (nativeHashOverride p m) = false →
      getModuleIdentity p m = m.name ++ "@" ++ m.version)
    ∧ (∀ ver : String,
      getModuleIdentity .all
        { name := "m", path := "", version := ver, isNativeAndroid := true,
          isNativeIOS := true,
          nativeDependencyHash := some { all := some "Z" } } = "m@Z")
    ∧ (∀ z : String, z ≠ "" → z ≠ "Z" →
      getModuleIdentity .all
        { name := "m", path := "", version := "0.0.2", isNativeAndroid := true,
          isNativeIOS := true,
          nativeDependencyHash := some { all := some z } } ≠ "m@Z") := by
  refine ⟨?_, ?_, ?_, ?_⟩
  · intro p m v h hne
    cases p <;> simp [getModuleIdentity, h, truthy, hne]
  · intro p m h
    cases p <;> simp [getModuleIdentity, h]
  · intro ver
    simp [getModuleIdentity, truthy, nativeHashOverride]
  · intro z hz hzZ heq
    have hid : getModuleIdentity .all
        { name := "m", path := "", version := "0.0.2", isNativeAndroid := true,
          isNativeIOS := true,
          nativeDependencyHash := some { all := some z } } = "m@" ++ z := by
      simp [getModuleIdentity, truthy, nativeHashOverride, hz]
    rw [hid] at heq
    have : z = "Z" := string_append_left_cancel (s := "m@") (by simpa using heq)
    exact hzZ this

/-- Witness for the hypothesis-bearing parts of the C1 theorem. -/
theorem getModuleIdentity_override_precedence_witness :
    getModuleIdentity .ios
      { name := "a", path := "", version := "1", isNativeAndroid := false,
        isNativeIOS := true,
        nativeDependencyHash := some { ios := some "X" } } = "a@X" :=
  getModuleIdentity_override_precedence.1 .ios _ "X" rfl (by decide)

/-- C10: for a module with per-platform overrides but no `all` override, the
`all` identity falls back to `name@version`; changing only an `ios` override
changes the `ios` identity but not the `all` identity. -/
theorem getModuleIdentity_all_ignores_platform_overrides :
    (∀ m : Module, truthy (nativeHashOverride .all m) = false →
      getModuleIdentity .all m = m.name ++ "@" ++ m.version)
    ∧ (∀ (i j : String), i ≠ "" → j ≠ "" → i ≠ j →
      getModuleIdentity .all
        { name := "m", path := "", version := "1.0.0", isNativeAndroid := true,
          isNativeIOS := true,
          nativeDependencyHash := some { ios := some i, android := some "A" } }
      = getModuleIdentity .all
        { name := "m", path := "", version := "1.0.0", isNativeAndroid := true,
          isNativeIOS := true,
          nativeDependencyHash := some { ios := some j, android := some "A" } }
      ∧ getModuleIdentity .ios
        { name := "m", path := "", version := "1.0.0", isNativeAndroid := true,
          isNativeIOS := true,
          nativeDependencyHash := some { ios := some i, android := some "A" } }
      ≠ getModuleIdentity .ios
        { name := "m", path := "", version := "1.0.0", isNativeAndroid := true,
          isNativeIOS := true,
          nativeDependencyHash := some { ios := some j, android := some "A" } }) := by
  constructor
  · intro m h
    simp [getModuleIdentity, h]
  · intro i j hi hj hij
    constructor
    · simp [getModuleIdentity, truthy, nativeHashOverride]
    · intro heq
      have h1 : getModuleIdentity .ios
          { name := "m", path := "", version := "1.0.0", isNativeAndroid := true,
            isNativeIOS := true,
            nativeDependencyHash := some { ios := some i, android := some "A" } }
          = "m@" ++ i := by
        simp [getModuleIdentity, truthy, nativeHashOverride, hi]
      have h2 : getModuleIdentity .ios
          { name := "m", path := "", version := "1.0.0", isNativeAndroid := true,
            isNativeIOS := true,
            nativeDependencyHash := some { ios := some j, android := some "A" } }
          = "m@" ++ j := by
        simp [getModuleIdentity, truthy, nativeHashOverride, hj]
      rw [h1, h2] at heq
      exact hij (string_append_left_cancel heq)

/-- Lexicographic comparison (as a non-strict order) of lists of naturals. -/
def natListLe : List Nat → List Nat → Bool
  | [], _ => true
  | _ :: _, [] => false
  | a :: as, b :: bs => if a < b then true else if b < a then false else natListLe as bs

theorem natListLe_refl (l : List Nat) : natListLe l l = true := by
  induction l with
  | nil => rfl
  | cons a as ih => simp [natListLe, ih]

theorem natListLe_total (l1 l2 : List Nat) :
    natListLe l1 l2 = true ∨ natListLe l2 l1 = true := by
  induction l1 generalizing l2 with
  | nil => left; rfl
  | cons a as ih =>
    cases l2 with
    | nil => right; rfl
    | cons b bs =>
      by_cases hab : a < b
      · left; simp [natListLe, hab]
      · by_cases hba : b < a
        · right; simp [natListLe, hba, Nat.lt_asymm hba]
        · have hEq : a = b := Nat.le_antisymm (Nat.not_lt.mp hba) (Nat.not_lt.mp hab)
          subst hEq
          rcases ih bs with h | h
          · left; simp [natListLe, h]
          · right; simp [natListLe, h]

theorem natListLe_antisymm {l1 l2 : List Nat}
    (h1 : natListLe l1 l2 = true) (h2 : natListLe l2 l1 = true) : l1 = l2 := by
  induction l1 generalizing l2 with
  | nil =>
    cases l2 with
    | nil => rfl
    | cons b bs => simp [natListLe] at h2
  | cons a as ih =>
    cases l2 with
    | nil => simp [natListLe] at h1
    | cons b bs =>
      by_cases hab : a < b
      · simp [natListLe, hab, Nat.lt_asymm hab] at h2
      · by_cases hba : b < a
        · simp [natListLe, hba, Nat.lt_asymm hba] at h1
        · have hEq : a = b := Nat.le_antisymm (Nat.not_lt.mp hba) (Nat.not_lt.mp hab)
          subst hEq
          simp only [natListLe, if_neg hab, if_neg hab] at h1 h2
          rw [ih h1 h2]

theorem natListLe_trans {l1 l2 l3 : List Nat}
    (h1 : natListLe l1 l2 = true) (h2 : natListLe l2 l3 = true) :
    natListLe l1 l3 = true := by
  induction l1 generalizing l2 l3 with
  | nil => rfl
  | cons a as ih =>
    cases l2 with
    | nil => simp [natListLe] at h1
    | cons b bs =>
      cases l3 with
      | nil => simp [natListLe] at h2
      | cons c cs =>
        simp only [natListLe] at h1 h2 ⊢
        by_cases hab : a < b
        · by_cases hbc : b < c
          · simp [Nat.lt_trans hab hbc]
          · by_cases hcb : c < b
            · simp [natListLe, hcb, Nat.lt_asymm hcb] at h2
            · have : b = c := Nat.le_antisymm (Nat.not_lt.mp hcb) (Nat.not_lt.mp hbc)
              subst this
              simp [hab]
        · by_cases hba : b < a
          · simp [hba, Nat.lt_asymm hba] at h1
          · have : a = b := Nat.le_antisymm (Nat.not_lt.mp hba) (Nat.not_lt.mp hab)
            subst this
            simp only [if_neg hab] at h1
            by_cases hbc : a < c
            · simp [hbc]
            · by_cases hcb : c < a
              · simp [hcb, Nat.lt_asymm hcb] at h2
              · have : a = c := Nat.le_antisymm (Nat.not_lt.mp hcb) (Nat.not_lt.mp hbc)
                subst this
                simp only [if_neg hbc] at h2 ⊢
                simp [ih h1 h2]

/-- Primary collation weight of an ASCII character: case-insensitive. -/
def collPrimary (c : Char) : Nat :=
  if 65 ≤ c.toNat ∧ c.toNat ≤ 90 then c.toNat + 32 else c.toNat

/-- Tertiary collation weight: lowercase sorts before uppercase. -/
def collTertiary (c : Char) : Nat :=
  if 65 ≤ c.toNat ∧ c.toNat ≤ 90 then 1 else 0

/-- Models the external `String.prototype.localeCompare` builtin (root/default
locale, as used by `getModules`'s sort comparator) on ASCII package names: the
primary pass compares case-insensitively by code point, and ties are broken by
a tertiary pass in which lowercase sorts before uppercase.  The two passes are
encoded as one lexicographic key: primary weights (all positive), then a `0`
separator, then tertiary weights. -/
def collationKey (s : String) : List Nat :=
  s.data.map collPrimary ++ 0 :: s.data.map collTertiary

/-- Non-strict comparison in the modelled root-locale collation:
`localeCompare(a, b) <= 0`. -/
def localeLe (a b : String) : Bool := natListLe (collationKey a) (collationKey b)

/-- Ordinal (code-point) key of a string, for the claim-side ordering. -/
def ordinalKey (s : String) : List Nat := s.data.map Char.toNat

/-- Ordinal (code-point) string comparison, as the specification's
"ordinal comparison" reads. -/
def ordinalLe (a b : String) : Bool := natListLe (ordinalKey a) (ordinalKey b)

/-- The comparator of `getModules`'s final sort:
`(a, b) => a.name.localeCompare(b.name)` (line 261 of `src/index.ts`). -/
def moduleLe (a b : Module) : Prop := localeLe a.name b.name = true

instance : DecidableRel moduleLe := fun a b =>
  Bool.decEq (localeLe a.name b.name) true

instance : IsTotal Module moduleLe :=
  ⟨fun a b => natListLe_total (collationKey a.name) (collationKey b.name)⟩

instance : IsTrans Module moduleLe :=
  ⟨fun _ _ _ h1 h2 => natListLe_trans h1 h2⟩

/-- The strict part of `moduleLe`, used to show sorted permutations with
pairwise-distinct collation keys are equal. -/
def moduleLt (a b : Module) : Prop := moduleLe a b ∧ ¬ moduleLe b a

instance : IsAntisymm Module moduleLt :=
  ⟨fun _ _ h1 h2 => absurd h1.1 h2.2⟩

/-- The final sorting step of `getModules`
(`allModules.sort((a, b) => a.name.localeCompare(b.name))`), modelled as a
stable insertion sort with the locale comparator, matching the stable
`Array.prototype.sort` of the JS runtime. -/
def sortModules (ms : List Module) : List Module := List.insertionSort moduleLe ms

theorem sortModules_sorted (ms : List Module) :
    List.Sorted moduleLe (sortModules ms) :=
  List.sorted_insertionSort moduleLe ms

theorem sortModules_perm (ms : List Module) : (sortModules ms).Perm ms :=
  List.perm_insertionSort moduleLe ms

theorem sorted_lt_of_sorted_le_nodupKeys {l : List Module}
    (hs : List.Sorted moduleLe l)
    (hnd : (l.map (fun m => collationKey m.name)).Nodup) :
    List.Sorted moduleLt l := by
  have hpair : List.Pairwise
      (fun a b : Module => collationKey a.name ≠ collationKey b.name) l := by
    rw [List.nodup_iff_sublist] at hnd
    have := (List.pairwise_map (l := l)).mp (List.nodup_iff_sublist.mpr hnd)
    exact this.imp (fun h => h)
  refine (hs.and hpair).imp ?_
  rintro a b ⟨hle, hne⟩
  refine ⟨hle, fun hba => hne (natListLe_antisymm hle hba)⟩

theorem sortModules_perm_invariant {l1 l2 : List Module}
    (hp : l1.Perm l2)
    (hnd : (l1.map (fun m => collationKey m.name)).Nodup) :
    sortModules l1 = sortModules l2 := by
  have hnd1 : ((sortModules l1).map (fun m => collationKey m.name)).Nodup :=
    (((sortModules_perm l1).map _).nodup_iff).mpr hnd
  have hnd2 : ((sortModules l2).map (fun m => collationKey m.name)).Nodup := by
    refine (((sortModules_perm l2).map _).nodup_iff).mpr ?_
    exact ((hp.map _).nodup_iff).mp hnd
  have hperm : (sortModules l1).Perm (sortModules l2) :=
    ((sortModules_perm l1).trans hp).trans (sortModules_perm l2).symm
  exact List.eq_of_perm_of_sorted hperm
    (sorted_lt_of_sorted_le_nodupKeys (sortModules_sorted l1) hnd1)
    (sorted_lt_of_sorted_le_nodupKeys (sortModules_sorted l2) hnd2)

theorem charToNat_inj {a b : Char} (h : a.toNat = b.toNat) : a = b := by
  apply Char.ext
  unfold Char.toNat at h
  exact UInt32.ext (by exact h)

theorem natListLe_append_sep {A B zs zs' : List Nat}
    (hA : ∀ x ∈ A, 0 < x) (hB : ∀ x ∈ B, 0 < x)
    (hz : A = B → zs = zs') :
    natListLe (A ++ 0 :: zs) (B ++ 0 :: zs') = natListLe A B := by
  induction A generalizing B with
  | nil =>
    cases B with
    | nil =>
      have : zs = zs' := hz rfl
      subst this
      simp [natListLe, natListLe_refl]
    | cons b bs =>
      have hbpos : 0 < b := hB b (List.mem_cons_self b bs)
      simp [natListLe, hbpos]
  | cons a as ih =>
    cases B with
    | nil =>
      have hapos : 0 < a := hA a (List.mem_cons_self a as)
      simp [natListLe, hapos, Nat.lt_asymm hapos, Nat.not_lt.mpr (Nat.le_of_lt hapos)]
    | cons b bs =>
      simp only [List.cons_append, natListLe]
      by_cases hab : a < b
      · simp [hab]
      · by_cases hba : b < a
        · simp [hba, hab]
        · have hEq : a = b := Nat.le_antisymm (Nat.not_lt.mp hba) (Nat.not_lt.mp hab)
          subst hEq
          simp only [if_neg hab]
          exact ih (fun x hx => hA x (List.mem_cons_of_mem a hx))
            (fun x hx => hB x (List.mem_cons_of_mem a hx))
            (fun h => hz (by rw [h]))

/-- All characters are lowercase ASCII letters or ASCII digits. -/
def isLowerAlnum (s : String) : Prop :=
  ∀ c ∈ s.data, (97 ≤ c.toNat ∧ c.toNat ≤ 122) ∨ (48 ≤ c.toNat ∧ c.toNat ≤ 57)

/-- On all-lowercase alphanumeric names the modelled locale collation agrees
with ordinal code-point comparison. -/
theorem localeLe_eq_ordinalLe_of_lowerAlnum {s t : String}
    (hs : isLowerAlnum s) (ht : isLowerAlnum t) :
    localeLe s t = ordinalLe s t := by
  have hprim : ∀ (u : String), isLowerAlnum u → u.data.map collPrimary = ordinalKey u := by
    intro u hu
    unfold ordinalKey
    apply List.map_congr_left
    intro c hc
    rcases hu c hc with h | h <;> simp [collPrimary] <;> omega
  have hpos : ∀ (u : String), isLowerAlnum u → ∀ x ∈ ordinalKey u, 0 < x := by
    intro u hu x hx
    rcases List.mem_map.mp hx with ⟨c, hc, rfl⟩
    rcases hu c hc with h | h <;> omega
  unfold localeLe collationKey
  rw [hprim s hs, hprim t ht]
  rw [natListLe_append_sep (hpos s hs) (hpos t ht)]
  · rfl
  · intro h
    have hdata : s.data = t.data := by
      have : s.data.map Char.toNat = t.data.map Char.toNat := h
      exact List.map_injective_iff.mpr (fun a b => charToNat_inj) this
    rw [hdata]

/-- Witness for the hypothesis-bearing parts of the C10 theorem. -/
theorem getModuleIdentity_all_ignores_platform_overrides_witness :
    getModuleIdentity .all
      { name := "b", path := "", version := "2.0.0", isNativeAndroid := true,
        isNativeIOS := false,
        nativeDependencyHash := some { ios := some "I", android := some "A" } }
      = "b@2.0.0" :=
  getModuleIdentity_all_ignores_platform_overrides.1 _ (by decide)

/-- Kind of a directory entry.  `readdir` in the source returns entry names
only; the kind is carried in the model so that claims about directories can
be stated. -/
inductive EntryKind where
  | file
  | dir
deriving DecidableEq, Repr

/-- The parsed `package.json` of a package, as read by `readPackageJson`:
the fields the source uses plus the remaining fields (`rest`, opaque) that a
rewrite of the file must preserve. -/
structure PkgJson where
  version : String
  nativeDependencyHash : Option NativeDependencyHash := none
  rest : List (String × String) := []
deriving DecidableEq, Repr

/-- The `ios` sub-object of the evaluated Expo config, restricted to the
fields `getAppJsonHash` touches; all other keys are abstracted as `rest`.
Entitlement values are modelled as strings (the only case the source's
redaction handles). -/
structure IOSCfg where
  entitlements : Option (List (String × String)) := none
  infoPlist : Option String := none
  jsEngine : Option String := none
  bundleIdentifier : Option String := none
  runtimeVersion : Option String := none
  rest : List (String × String) := []
deriving DecidableEq, Repr

/-- The `android` sub-object of the evaluated Expo config, restricted to the
fields `getAppJsonHash` touches. -/
structure AndroidCfg where
  permissions : Option String := none
  blockedPermissions : Option String := none
  jsEngine : Option String := none
  runtimeVersion : Option String := none
  rest : List (String × String) := []
deriving DecidableEq, Repr

/-- The evaluated Expo config object (`exp`), restricted to the fields the
source touches; unknown top-level keys are abstracted as `rest` with opaque
serialized values. -/
structure ExpoCfg where
  ios : Option IOSCfg := none
  android : Option AndroidCfg := none
  plugins : Option String := none
  jsEngine : Option String := none
  runtimeVersion : Option String := none
  rest : List (String × String) := []
deriving DecidableEq, Repr

/-- Outcome of the external `npx expo config --json --full --type prebuild`
invocation consumed by `readExpoConfig`: the process erroring (or its output
being unparsable) or a parsed `exp` value, where `none` stands for a null or
absent `exp` object. -/
inductive RawCfg where
  | evalError
  | parsed (cfg : Option ExpoCfg)
deriving DecidableEq, Repr

/-- The inputs the source reads from its environment, as total functions:
`entries` models `readdir` (the source consumes only the names; kinds are
carried for claim statements), `readFile` models reading a file (with `none`
for an unreadable path), `gitFiles` models the lines of
`git ls-tree -r HEAD --name-only` at a working directory, `pkgJson` models
parsing `<path>/package.json` (`none` for unreadable or unparsable), and
`expoEval` models the external Expo config evaluation at a working
directory. -/
structure Fs where
  entries : String → List (String × EntryKind)
  readFile : String → Option String
  gitFiles : String → List String
  pkgJson : String → Option PkgJson
  expoEval : String → RawCfg

/-- The entry names `readdir` returns for a path. -/
def Fs.names (fs : Fs) (path : String) : List String :=
  (fs.entries path).map Prod.fst

/-- Outcome of running a piece of the tool: a value, a `process.exit`, or an
unhandled rejection (crash). -/
inductive POut (α : Type) where
  | ok : α → POut α
  | exit : Nat → POut α
  | crash : POut α
deriving DecidableEq, Repr

def POut.bind {α β : Type} : POut α → (α → POut β) → POut β
  | .ok a, f => f a
  | .exit n, _ => .exit n
  | .crash, _ => .crash

/-- Value part of an outcome that carries a log, discarding the log. -/
def POut.val {α β : Type} : POut (α × β) → POut α
  | .ok (a, _) => .ok a
  | .exit n => .exit n
  | .crash => .crash

/-- Lift a possibly-failing read into an outcome (a rejected promise that no
caller catches crashes the run). -/
def liftOpt {α : Type} : Option α → POut α
  | some a => .ok a
  | none => .crash

/-- Model of `Path.join` (normalization elided): joins with a slash. -/
def pathJoin (a b : String) : String := a ++ "/" ++ b

/-- Models the JavaScript builtin `String.prototype.startsWith` (defined on
the character list so the kernel can evaluate it). -/
def jsStartsWith (s pre : String) : Bool := pre.data.isPrefixOf s.data

/-- Models the JavaScript builtin `String.prototype.endsWith` (defined on
the character list so the kernel can evaluate it). -/
def jsEndsWith (s suf : String) : Bool := suf.data.reverse.isPrefixOf s.data.reverse

/-- `hasNativeVersion` from `src/index.ts` (lines 56-65) after the `readdir`:
decides nativeness from the listed entry names via `includes`. -/
def hasNativeVersion (platform : Platform) (subDirs : List String) : Bool :=
  if platform = Platform.ios then subDirs.contains "ios"
  else if platform = Platform.android then subDirs.contains "android"
  else subDirs.contains "ios" || subDirs.contains "android"

/-- `hasNativeVersion` applied to a path of the modelled filesystem. -/
def hasNativeVersionFs (fs : Fs) (platform : Platform) (path : String) : Bool :=
  hasNativeVersion platform (fs.names path)

/-- Effect of `Promise.all` over possibly-failing reads: all succeed in input
order, or the batch rejects. -/
def optMapM {α β : Type} (f : α → Option β) : List α → Option (List β)
  | [] => some []
  | a :: as =>
    match f a, optMapM f as with
    | some b, some bs => some (b :: bs)
    | _, _ => none

/-- `hashFiles` from `src/index.ts` (lines 83-94): per-file `path@digest`
pairs in input order, joined with `,`, digested.  An unreadable file rejects
the whole batch. -/
def hashFiles (fs : Fs) (rootDir : String) (relativeFilePaths : List String)
    (verbose : Bool) : Option (String × List String) :=
  match optMapM (fun filePath =>
      (fs.readFile (pathJoin rootDir filePath)).map
        (fun contents => filePath ++ "@" ++ hashIt contents)) relativeFilePaths with
  | none => none
  | some nativeFilesHashes =>
    some (hashIt (String.intercalate "," nativeFilesHashes),
      if verbose && !nativeFilesHashes.isEmpty then
        ["native files with hashes: " ++ String.intercalate "\n" nativeFilesHashes]
      else [])

/-- The git-file filter of `getFolderHash` (lines 122-129): include for iOS
files rooted at `ios` or ending in `.podspec`, for Android files rooted at
`android`. -/
def nativeFileFilter (platform : Platform) (f : String) : Bool :=
  ((platform != Platform.android) &&
    (jsStartsWith f "ios" || jsEndsWith f ".podspec")) ||
  ((platform != Platform.ios) && jsStartsWith f "android")

/-- The git-file filter of `getAppPluginHash` (lines 141-147): config-plugin
files by filename convention. -/
def pluginFileFilter (f : String) : Bool :=
  jsEndsWith f "plugin.js" || jsEndsWith f "plugin.ts"

/-- `getFolderHash` from `src/index.ts` (lines 101-132). -/
def getFolderHash (fs : Fs) (platform : Platform) (rootDir : String)
    (verbose : Bool) : Option (String × List String) :=
  if !hasNativeVersionFs fs platform rootDir then
    some ("", if verbose then
      ["Skipping native files because there are no iOS/Android folders"] else [])
  else
    let log1 := if verbose then ["Reading native files from git..."] else []
    let nativeFiles := (fs.gitFiles rootDir).filter (nativeFileFilter platform)
    match hashFiles fs rootDir nativeFiles verbose with
    | none => none
    | some (h, l) => some (h, log1 ++ l)

/-- `getAppPluginHash` from `src/index.ts` (lines 134-150). -/
def getAppPluginHash (fs : Fs) (rootDir : String) (verbose : Bool) :
    Option (String × List String) :=
  let nativeFiles := (fs.gitFiles rootDir).filter pluginFileFilter
  hashFiles fs rootDir nativeFiles verbose

/-- First-occurrence replacement on character lists. -/
def listReplaceFirst (s pat rep : List Char) : List Char :=
  match s with
  | [] => if pat.isEmpty then rep else []
  | c :: cs =>
    if pat.isPrefixOf (c :: cs) then rep ++ (c :: cs).drop pat.length
    else c :: listReplaceFirst cs pat rep

/-- Models the JavaScript builtin `String.prototype.replace` with a string
pattern, which replaces only the first occurrence. -/
def replaceFirst (s pat rep : String) : String :=
  String.mk (listReplaceFirst s.data pat.data rep.data)

/-- The `ios` sub-object after `getAppJsonHash`'s pruning. -/
structure PrunedIOS where
  entitlements : Option (List (String × String))
  infoPlist : Option String
  jsEngine : Option String
deriving DecidableEq, Repr

/-- The `android` sub-object after `getAppJsonHash`'s pruning. -/
structure PrunedAndroid where
  permissions : Option String
  blockedPermissions : Option String
  jsEngine : Option String
deriving DecidableEq, Repr

/-- The config after `getAppJsonHash`'s pruning: only allow-listed keys
survive. -/
structure PrunedCfg where
  ios : Option PrunedIOS
  android : Option PrunedAndroid
  plugins : Option String
  jsEngine : Option String
deriving DecidableEq, Repr

/-- The in-place pruning of `getAppJsonHash` (lines 332-369): keep only the
allow-listed top-level keys (`android`, `ios`, `plugins`, `jsEngine`); drop
the opposite platform's sub-object for a single-platform hash; prune each
sub-object to its own allow-list; redact the captured `bundleIdentifier`
(first occurrence) from truthy string entitlement values. -/
def pruneConfig (platform : Platform) (cfg : ExpoCfg) : PrunedCfg :=
  let android := if platform = Platform.ios then none
    else cfg.android.map (fun a =>
      PrunedAndroid.mk a.permissions a.blockedPermissions a.jsEngine)
  let ios := if platform = Platform.android then none
    else cfg.ios.map (fun i =>
      let bid := i.bundleIdentifier
      PrunedIOS.mk
        (i.entitlements.map (fun es => es.map (fun kv =>
          (kv.1, if kv.2 ≠ "" ∧ truthy bid = true then
            replaceFirst kv.2 (bid.getD "") "" else kv.2))))
        i.infoPlist i.jsEngine)
  PrunedCfg.mk ios android cfg.plugins cfg.jsEngine

def lbrace : String := "\x7b"

def rbrace : String := "\x7d"

def quoteStr (s : String) : String := "\"" ++ s ++ "\""

def serializePairs (es : List (String × String)) : String :=
  lbrace ++ String.intercalate ","
    (es.map (fun kv => quoteStr kv.1 ++ ":" ++ quoteStr kv.2)) ++ rbrace

def serializeOptField (k : String) (v : Option String) : List String :=
  match v with
  | none => []
  | some s => [quoteStr k ++ ":" ++ quoteStr s]

def serializeIOS (i : PrunedIOS) : String :=
  lbrace ++ String.intercalate ","
    ((match i.entitlements with
      | none => []
      | some es => [quoteStr "entitlements" ++ ":" ++ serializePairs es]) ++
     serializeOptField "infoPlist" i.infoPlist ++
     serializeOptField "jsEngine" i.jsEngine) ++ rbrace

def serializeAndroid (a : PrunedAndroid) : String :=
  lbrace ++ String.intercalate ","
    (serializeOptField "blockedPermissions" a.blockedPermissions ++
     serializeOptField "jsEngine" a.jsEngine ++
     serializeOptField "permissions" a.permissions) ++ rbrace

/-- Models the external `fast-safe-stringify` stable serializer at its
boundary: a deterministic rendering with keys in a fixed sorted order and
absent fields omitted. -/
def stableStringify (c : PrunedCfg) : String :=
  lbrace ++ String.intercalate ","
    ((match c.android with
      | none => []
      | some a => [quoteStr "android" ++ ":" ++ serializeAndroid a]) ++
     (match c.ios with
      | none => []
      | some i => [quoteStr "ios" ++ ":" ++ serializeIOS i]) ++
     serializeOptField "jsEngine" c.jsEngine ++
     serializeOptField "plugins" c.plugins) ++ rbrace

/-- `readExpoConfig` from `src/index.ts` (lines 270-284): on any failure of
the external evaluation (or unparsable output) it logs and calls
`process.exit(1)`. -/
def readExpoConfig (fs : Fs) (rootDir : String) (verbose : Bool) :
    POut (Option ExpoCfg × List String) :=
  match fs.expoEval rootDir with
  | .evalError => .exit 1
  | .parsed cfg => .ok (cfg, if verbose then ["Expo Config"] else [])

/-- `getAppJsonHash` from `src/index.ts` (lines 326-379).  A `process.exit`
raised inside `readExpoConfig` terminates the run (it is not an exception, so
the surrounding `try` cannot recover it).  A null/absent `exp` object makes
the pruning dereference throw, which the surrounding `try` catches, leaving
the empty-string contribution. -/
def getAppJsonHash (fs : Fs) (platform : Platform) (rootDir : String)
    (verbose : Bool) : POut (String × List String) :=
  match readExpoConfig fs rootDir verbose with
  | .exit n => .exit n
  | .crash => .crash
  | .ok (none, log) => .ok ("", log)
  | .ok (some cfg, log) =>
    .ok (hashIt (stableStringify (pruneConfig platform cfg)), log)

/-- Fan-out over a list where each element yields some modules and some log
output, concatenated in input order (the source's `Promise.all` preserves
input order). -/
def listPOut {α β : Type} (f : α → POut (List β × List String)) :
    List α → POut (List β × List String)
  | [] => .ok ([], [])
  | a :: as =>
    (f a).bind (fun r1 =>
      (listPOut f as).bind (fun r2 => .ok (r1.1 ++ r2.1, r1.2 ++ r2.2)))

/-- Construction of one `Module` record (lines 222-241 and 246-255 of
`src/index.ts`): read the package manifest (`readPackageJson` exits the
process when it is unreadable or unparsable), then check nativeness per
platform. -/
def moduleOfPath (fs : Fs) (name path : String) : POut Module :=
  match fs.pkgJson path with
  | none => .exit 1
  | some pkg =>
    .ok { name := name, path := path, version := pkg.version,
          isNativeAndroid := hasNativeVersionFs fs .android path,
          isNativeIOS := hasNativeVersionFs fs .ios path,
          nativeDependencyHash := pkg.nativeDependencyHash }

/-- Processing of one top-level `node_modules` entry (lines 203-258):
dot-entries are skipped, `@`-entries are scopes whose one-level-deep
sub-entries (minus dot-entries) become `@scope/name` modules, and anything
else is a plain module. -/
def scanEntry (fs : Fs) (verbose : Bool) (dir relativePath : String) :
    POut (List Module × List String) :=
  if jsStartsWith relativePath "." then .ok ([], [])
  else
    let path := pathJoin dir relativePath
    if jsStartsWith relativePath "@" then
      let log0 := if verbose then ["Found scope: " ++ relativePath] else []
      (listPOut (fun s =>
        if jsStartsWith s "." then .ok ([], [])
        else
          let logs := if verbose then
            ["Found scoped module: " ++ relativePath ++ "/" ++ s] else []
          (moduleOfPath fs (relativePath ++ "/" ++ s) (pathJoin path s)).bind
            (fun m => .ok ([m], logs)))
        (fs.names path)).bind (fun r => .ok (r.1, log0 ++ r.2))
    else
      (moduleOfPath fs relativePath path).bind (fun m => .ok ([m], []))

/-- `getModules` from `src/index.ts` (lines 187-268): enumerate every
packages directory, build the flat module list, and sort it with the
`localeCompare` comparator. -/
def getModules (fs : Fs) (rootDir : String) (verbose : Bool)
    (nodeModulePaths : List String) : POut (List Module × List String) :=
  let dirs := nodeModulePaths.map (pathJoin rootDir)
  (listPOut (fun dir => listPOut (scanEntry fs verbose dir) (fs.names dir)) dirs).bind
    (fun r => .ok (sortModules r.1, r.2))

/-- `getModulesForPlatform` from `src/index.ts` (lines 381-400). -/
def getModulesForPlatform (fs : Fs) (platform : Platform) (rootDir : String)
    (verbose : Bool) (nodeModulePaths : List String) :
    POut (List Module × List String) :=
  (getModules fs rootDir verbose nodeModulePaths).bind (fun r =>
    .ok (r.1.filter (fun m =>
      if platform = Platform.ios then m.isNativeIOS
      else if platform = Platform.android then m.isNativeAndroid
      else m.isNativeAndroid || m.isNativeIOS), r.2))

/-- `GenerateHashOptions` with the presence of each optional property made
explicit: `none` means the property was not passed, so the destructuring
default of `getCurrentHash` (from `GENERATE_HASH_DEFAULTS`) applies. -/
structure GenerateHashOptions where
  verbose : Option Bool := none
  rootDir : Option String := none
  skipNodeModules : Option Bool := none
  skipAppJson : Option Bool := none
  skipLocalNativeFolders : Option Bool := none
  nodeModulePaths : List String

/-- The composed string of `getCurrentHash` (line 431 of `src/index.ts`). -/
def composeHashString (appJsonContent localNativeFoldersHash : String)
    (nativeModuleIdentities : List String) (appPlugins : String) : String :=
  "app.json@" ++ appJsonContent ++ ";local@" ++ localNativeFoldersHash ++ ";" ++
    String.intercalate "," nativeModuleIdentities ++ ";plugins@" ++ appPlugins

/-- `getCurrentHash` from `src/index.ts` (lines 402-440).  Defaults mirror
`GENERATE_HASH_DEFAULTS` (note `skipLocalNativeFolders` defaults to `true`).
The app-plugin digest is computed against `'.'` (the working directory), not
`rootDir`, exactly as in the source (line 425). -/
def getCurrentHash (fs : Fs) (platform : Platform) (o : GenerateHashOptions) :
    POut (String × List String) :=
  let rootDir := o.rootDir.getD "."
  let skipNodeModules := o.skipNodeModules.getD false
  let verbose := o.verbose.getD false
  let skipAppJson := o.skipAppJson.getD false
  let skipLocalNativeFolders := o.skipLocalNativeFolders.getD true
  let log0 := if verbose then ["Getting hash for platform: " ++ platform.str] else []
  (if skipLocalNativeFolders then .ok ("", [])
   else liftOpt (getFolderHash fs platform rootDir verbose)).bind (fun r1 =>
  (if skipAppJson then .ok ("", [])
   else getAppJsonHash fs platform rootDir verbose).bind (fun r2 =>
  (if skipNodeModules then .ok (([] : List Module), [])
   else getModulesForPlatform fs platform rootDir verbose o.nodeModulePaths).bind (fun r3 =>
  (if skipLocalNativeFolders then .ok ("", [])
   else liftOpt (getAppPluginHash fs "." verbose)).bind (fun r4 =>
  let nativeModuleIdentities := r3.1.map (getModuleIdentity platform)
  let log5 := if verbose && !skipNodeModules then
    ["Found native modules: " ++ String.intercalate "\n" nativeModuleIdentities] else []
  let stringToHashFrom := composeHashString r2.1 r1.1 nativeModuleIdentities r4.1
  let log6 := if verbose then ["Generating hash from string:\n" ++ stringToHashFrom] else []
  .ok (hashIt stringToHashFrom,
    log0 ++ r1.2 ++ r2.2 ++ r3.2 ++ r4.2 ++ log5 ++ log6)))))

/-- The `{ ios, android, all }` digest triple. -/
structure Hashes where
  ios : String
  android : String
  all : String
deriving DecidableEq, Repr

/-- `generateHashes` from `src/index.ts` (lines 442-458); the three
per-platform computations are independent (`Promise.all`), modelled in the
listed order. -/
def generateHashes (fs : Fs) (opts : GenerateHashOptions) : POut Hashes :=
  (getCurrentHash fs .ios opts).bind (fun i =>
  (getCurrentHash fs .android opts).bind (fun a =>
  (getCurrentHash fs .all opts).bind (fun al =>
  .ok { ios := i.1, android := a.1, all := al.1 })))

/-- The checkpoint-reconciliation section of `verifyLibrary` (lines 593-624):
check the `all`, `ios`, `android` fields of `nativeDependencyHash` in order,
OR-aggregating `valueExists` and `hasChanged`. -/
def verifyLibraryChecks (ndh : Option NativeDependencyHash)
    (ios android all : String) : Bool × Bool :=
  let allStored := ndh.bind (fun h => h.all)
  let iosStored := ndh.bind (fun h => h.ios)
  let androidStored := ndh.bind (fun h => h.android)
  let valueExists1 := truthy allStored
  let hasChanged1 := truthy allStored && (allStored.getD "" != all)
  let valueExists2 := valueExists1 || truthy iosStored
  let hasChanged2 := hasChanged1 || (truthy iosStored && (iosStored.getD "" != ios))
  let valueExists3 := valueExists2 || truthy androidStored
  let hasChanged3 := hasChanged2 ||
    (truthy androidStored && (androidStored.getD "" != android))
  (valueExists3, hasChanged3)

/-- The checkpoint-reconciliation section of `verifyExpoApp` (lines 485-518):
check the global, iOS and Android `runtimeVersion` fields of the evaluated
config in order, OR-aggregating `valueExists` and `hasChanged`.  A null
config makes the first field access throw, which the surrounding `try`
catches, leaving both flags false. -/
def verifyExpoAppChecks (cfg : Option ExpoCfg) (ios android all : String) :
    Bool × Bool :=
  match cfg with
  | none => (false, false)
  | some c =>
    let globalStored := c.runtimeVersion
    let iosStored := c.ios.bind (fun x => x.runtimeVersion)
    let androidStored := c.android.bind (fun x => x.runtimeVersion)
    let valueExists1 := truthy globalStored
    let hasChanged1 := truthy globalStored && (globalStored.getD "" != all)
    let valueExists2 := valueExists1 || truthy iosStored
    let hasChanged2 := hasChanged1 || (truthy iosStored && (iosStored.getD "" != ios))
    let valueExists3 := valueExists2 || truthy androidStored
    let hasChanged3 := hasChanged2 ||
      (truthy androidStored && (androidStored.getD "" != android))
    (valueExists3, hasChanged3)

/-- `verifyExpoApp` from `src/index.ts` (lines 460-523): generate the three
hashes, then reconcile them against the `runtimeVersion` fields of the
evaluated Expo config. -/
def verifyExpoApp (fs : Fs) (rootDir : String) (verbose : Bool)
    (includeAppJson : Bool) (includeLocalNativeFolders : Bool)
    (nodeModulePaths : List String) : POut ((Bool × Bool) × Hashes) :=
  let opts : GenerateHashOptions :=
    { rootDir := some rootDir, verbose := some verbose,
      skipAppJson := some (!includeAppJson),
      skipLocalNativeFolders := some (!includeLocalNativeFolders),
      nodeModulePaths := nodeModulePaths }
  (generateHashes fs opts).bind (fun h =>
    (readExpoConfig fs rootDir verbose).bind (fun r =>
      .ok (verifyExpoAppChecks r.1 h.ios h.android h.all, h)))

/-- The options `verifyLibrary` passes to `generateHashes` (lines 584-591):
all of `skipNodeModules`, `skipAppJson` and `skipLocalNativeFolders` are
passed explicitly. -/
def verifyLibraryGenOpts (rootDir : String) (verbose skipLocalNativeFolders : Bool) :
    GenerateHashOptions :=
  { rootDir := some rootDir, verbose := some verbose,
    skipNodeModules := some true, skipAppJson := some true,
    skipLocalNativeFolders := some skipLocalNativeFolders,
    nodeModulePaths := [] }

/-- The options `updateLibrary` passes to its own `generateHashes` call
(lines 646-652): `skipLocalNativeFolders` is NOT passed, so the
`GENERATE_HASH_DEFAULTS` value `true` applies there. -/
def updateLibraryGenOpts (rootDir : String) (verbose : Bool) :
    GenerateHashOptions :=
  { rootDir := some rootDir, verbose := some verbose,
    skipNodeModules := some true, skipAppJson := some true,
    nodeModulePaths := [] }

/-- `verifyLibrary` from `src/index.ts` (lines 571-627).  Note the
`skipLocalNativeFolders` parameter defaults to `false` here, unlike
`GENERATE_HASH_DEFAULTS`. -/
def verifyLibrary (fs : Fs) (rootDir : String) (verbose : Bool)
    (skipLocalNativeFolders : Bool := false) : POut (Bool × Bool) :=
  (generateHashes fs (verifyLibraryGenOpts rootDir verbose skipLocalNativeFolders)).bind
    (fun h =>
    match fs.pkgJson rootDir with
    | none => .exit 1
    | some pkg =>
      .ok (verifyLibraryChecks pkg.nativeDependencyHash h.ios h.android h.all))

def serializeNDH (h : NativeDependencyHash) : String :=
  lbrace ++ String.intercalate ","
    (serializeOptField "all" h.all ++ serializeOptField "android" h.android ++
     serializeOptField "ios" h.ios) ++ rbrace

/-- Rendering of the package manifest written back by `updateLibrary`
(`JSON.stringify(prevJson, null, 2)` modelled as a deterministic
serialization). -/
def serializePkgJson (p : PkgJson) : String :=
  lbrace ++ String.intercalate ","
    ((match p.nativeDependencyHash with
      | none => []
      | some h => [quoteStr "nativeDependencyHash" ++ ":" ++ serializeNDH h]) ++
     p.rest.map (fun kv => quoteStr kv.1 ++ ":" ++ quoteStr kv.2) ++
     [quoteStr "version" ++ ":" ++ quoteStr p.version]) ++ rbrace

/-- Effect of `writeFile(Path.join(rootDir, 'package.json'), ...)` on the
modelled filesystem: the parsed manifest at `rootDir` and the raw file both
change; nothing else does. -/
def writePkgJson (fs : Fs) (rootDir : String) (doc : PkgJson) : Fs :=
  { fs with
    pkgJson := fun p => if p = rootDir then some doc else fs.pkgJson p,
    readFile := fun p =>
      if p = pathJoin rootDir "package.json" then some (serializePkgJson doc ++ "\n")
      else fs.readFile p }

/-- `updateLibrary` from `src/index.ts` (lines 629-665): verify first; when
the checkpoint exists and matches, return without writing (write count 0);
otherwise recompute the hashes (note: this second `generateHashes` call omits
`skipLocalNativeFolders`, so the default `true` applies) and write them into
`nativeDependencyHash`, preserving all other manifest fields (write
count 1). -/
def updateLibrary (fs : Fs) (rootDir : String) (verbose : Bool) :
    POut (Fs × Nat) :=
  (verifyLibrary fs rootDir verbose).bind (fun prev =>
    if prev.1 && !prev.2 then .ok (fs, 0)
    else
      (generateHashes fs (updateLibraryGenOpts rootDir verbose)).bind (fun h =>
        match fs.pkgJson rootDir with
        | none => .exit 1
        | some prevJson =>
          let newNdh : NativeDependencyHash :=
            { ios := some h.ios, android := some h.android, all := some h.all }
          let newJson := { prevJson with nativeDependencyHash := some newNdh }
          .ok (writePkgJson fs rootDir newJson, 1)))

/-- A package root whose only entry is a regular file named `ios`. -/
def fsIosFile : Fs :=
  { entries := fun p => if p = "pkg" then [("ios", EntryKind.file)] else [],
    readFile := fun _ => none,
    gitFiles := fun _ => [],
    pkgJson := fun _ => none,
    expoEval := fun _ => .evalError }

/-- A project state with two readable files `r/a` and `r/b`. -/
def fsPair : Fs :=
  { entries := fun _ => [],
    readFile := fun p =>
      if p = "r/a" then some "x" else if p = "r/b" then some "y" else none,
    gitFiles := fun _ => [],
    pkgJson := fun _ => none,
    expoEval := fun _ => .evalError }

/-- A project state where the external Expo config evaluation errors. -/
def fsEvalError : Fs :=
  { entries := fun _ => [],
    readFile := fun _ => none,
    gitFiles := fun _ => [],
    pkgJson := fun _ => none,
    expoEval := fun _ => .evalError }

/-- A project state where the Expo config evaluates to a null `exp` object. -/
def fsNullConfig : Fs :=
  { fsEvalError with expoEval := fun _ => .parsed none }

/-- Options that hash only the app config (modules and local folders
skipped). -/
def optsAppJsonOnly : GenerateHashOptions :=
  { skipAppJson := some false, skipNodeModules := some true, nodeModulePaths := [] }

/-- Options with every input source skipped. -/
def optsSkipAll : GenerateHashOptions :=
  { skipAppJson := some true, skipNodeModules := some true, nodeModulePaths := [] }

/-- Options that hash only the app config, at an explicit root directory. -/
def optsConfigOnly (rootDir : String) (vb : Bool) (nmp : List String) :
    GenerateHashOptions :=
  { rootDir := some rootDir, verbose := some vb, skipAppJson := some false,
    skipNodeModules := some true, nodeModulePaths := nmp }

/-- Claim-side predicate: a storage location holds a (non-empty) value. -/
def storedNonEmpty (stored : Option String) : Prop :=
  ∃ v, stored = some v ∧ v ≠ ""

/-- Claim-side predicate: a storage location holds a value that differs from
the corresponding freshly computed digest. -/
def storedDiffers (stored : Option String) (fresh : String) : Prop :=
  ∃ v, stored = some v ∧ v ≠ "" ∧ v ≠ fresh

theorem truthy_iff (o : Option String) : truthy o = true ↔ storedNonEmpty o := by
  cases o with
  | none => simp [truthy, storedNonEmpty]
  | some s => simp [truthy, storedNonEmpty]

theorem changed_bit_iff (o : Option String) (f : String) :
    (truthy o && (o.getD "" != f)) = true ↔ storedDiffers o f := by
  cases o with
  | none => simp [truthy, storedDiffers]
  | some s => simp [truthy, storedDiffers, bne_iff_ne]

theorem changed_prop_iff (o : Option String) (f : String) :
    (truthy o = true ∧ ¬ o.getD "" = f) ↔ storedDiffers o f := by
  cases o with
  | none => simp [truthy, storedDiffers]
  | some s => simp [truthy, storedDiffers]

/-- C2: both reconciliation routines OR-aggregate across their three storage
locations: `valueExists` is true iff some location holds a non-empty value,
and `hasChanged` is true iff some location holding a value differs from the
corresponding fresh digest. -/
theorem verify_checks_or_aggregation :
    (∀ (ndh : Option NativeDependencyHash) (ios android all : String),
      ((verifyLibraryChecks ndh ios android all).1 = true ↔
        (storedNonEmpty (ndh.bind (fun h => h.all)) ∨
         storedNonEmpty (ndh.bind (fun h => h.ios)) ∨
         storedNonEmpty (ndh.bind (fun h => h.android))))
      ∧ ((verifyLibraryChecks ndh ios android all).2 = true ↔
        (storedDiffers (ndh.bind (fun h => h.all)) all ∨
         storedDiffers (ndh.bind (fun h => h.ios)) ios ∨
         storedDiffers (ndh.bind (fun h => h.android)) android)))
    ∧ (∀ (c : ExpoCfg) (ios android all : String),
      ((verifyExpoAppChecks (some c) ios android all).1 = true ↔
        (storedNonEmpty c.runtimeVersion ∨
         storedNonEmpty (c.ios.bind (fun x => x.runtimeVersion)) ∨
         storedNonEmpty (c.android.bind (fun x => x.runtimeVersion))))
      ∧ ((verifyExpoAppChecks (some c) ios android all).2 = true ↔
        (storedDiffers c.runtimeVersion all ∨
         storedDiffers (c.ios.bind (fun x => x.runtimeVersion)) ios ∨
         storedDiffers (c.android.bind (fun x => x.runtimeVersion)) android))) := by
  constructor
  · intro ndh i a al
    constructor
    · simp [verifyLibraryChecks, Bool.or_eq_true, truthy_iff, or_assoc]
    · simp [verifyLibraryChecks, Bool.or_eq_true, changed_prop_iff, or_assoc]
  · intro c i a al
    constructor
    · simp [verifyExpoAppChecks, Bool.or_eq_true, truthy_iff, or_assoc]
    · simp [verifyExpoAppChecks, Bool.or_eq_true, changed_prop_iff, or_assoc]

/-- C8 counterexample: `hasNativeVersion` checks `readdir(...).includes`, so
a package whose root holds a regular FILE named `ios` is classified as
iOS-native although no directory named `ios` exists under its root. -/
theorem hasNativeVersion_file_entry_counterexample :
    hasNativeVersionFs fsIosFile Platform.ios "pkg" = true ∧
    ("ios", EntryKind.dir) ∉ fsIosFile.entries "pkg" := by
  decide

/-- C8 amended: the scanner classifies a package as native for a platform
exactly when an entry OF ANY KIND with the platform's conventional name
exists directly under the package root, and the combined check is the
disjunction of the two. -/
theorem hasNativeVersion_entry_presence :
    ∀ (fs : Fs) (path : String),
      (hasNativeVersionFs fs .ios path = true ↔ ∃ k, ("ios", k) ∈ fs.entries path)
      ∧ (hasNativeVersionFs fs .android path = true ↔
          ∃ k, ("android", k) ∈ fs.entries path)
      ∧ hasNativeVersionFs fs .all path =
          (hasNativeVersionFs fs .ios path || hasNativeVersionFs fs .android path) := by
  intro fs path
  have hmem : ∀ (nm : String), (fs.names path).contains nm = true ↔
      ∃ k, (nm, k) ∈ fs.entries path := by
    intro nm
    rw [show ((fs.names path).contains nm = true ↔ nm ∈ fs.names path) from by simp]
    unfold Fs.names
    constructor
    · intro h
      rcases List.mem_map.mp h with ⟨⟨n, k⟩, hk, he⟩
      simp only [Prod.fst] at he
      subst he
      exact ⟨k, hk⟩
    · rintro ⟨k, hk⟩
      exact List.mem_map.mpr ⟨(nm, k), hk, rfl⟩
  refine ⟨?_, ?_, ?_⟩
  · rw [← hmem]
    simp [hasNativeVersionFs, hasNativeVersion]
  · rw [← hmem]
    simp [hasNativeVersionFs, hasNativeVersion]
  · simp [hasNativeVersionFs, hasNativeVersion]

theorem optMapM_eq_map {α β : Type} (f : α → Option β) (g : α → β) (l : List α)
    (h : ∀ a ∈ l, f a = some (g a)) : optMapM f l = some (l.map g) := by
  induction l with
  | nil => rfl
  | cons a as ih =>
    have ha := h a (List.mem_cons_self a as)
    have hrest := ih (fun x hx => h x (List.mem_cons_of_mem a hx))
    simp [optMapM, ha, hrest]

/-- C6: when every listed file is readable, the folder-content digest is the
digest of the `path@digest` pairs joined with `,` in exactly the input order,
and the result depends on that order (shown on a concrete two-file state). -/
theorem hashFiles_ordered_composition :
    (∀ (fs : Fs) (rootDir : String) (paths : List String)
       (content : String → String) (verbose : Bool),
      (∀ p ∈ paths, fs.readFile (pathJoin rootDir p) = some (content p)) →
      (hashFiles fs rootDir paths verbose).map Prod.fst =
        some (hashIt (String.intercalate ","
          (paths.map (fun p => p ++ "@" ++ hashIt (content p))))))
    ∧ hashFiles fsPair "r" ["a", "b"] false ≠ hashFiles fsPair "r" ["b", "a"] false := by
  constructor
  · intro fs rootDir paths content verbose h
    unfold hashFiles
    rw [optMapM_eq_map _ (fun p => p ++ "@" ++ hashIt (content p)) paths
      (fun a ha => by rw [h a ha]; rfl)]
    rfl
  · decide

/-- Witness for the hypothesis-bearing part of the C6 theorem. -/
theorem hashFiles_ordered_composition_witness :
    (hashFiles fsPair "r" ["a"] false).map Prod.fst =
      some (hashIt (String.intercalate ","
        (["a"].map (fun p => p ++ "@" ++ hashIt "x")))) :=
  hashFiles_ordered_composition.1 fsPair "r" ["a"] (fun _ => "x") false (by decide)

/-- C4 counterexample: when the external config evaluation errors,
`readExpoConfig` calls `process.exit(1)`, so the config-normalization step
and the whole hash computation abort with exit code 1 instead of
contributing an empty string and completing. -/
theorem config_eval_error_aborts_counterexample :
    getAppJsonHash fsEvalError Platform.all "." false = POut.exit 1 ∧
    getCurrentHash fsEvalError Platform.all optsAppJsonOnly = POut.exit 1 := by
  constructor
  · rfl
  · rfl

/-- C4 amended: only a successfully evaluated but null/absent config object
degrades to the empty-string contribution (the pruning throw is caught
locally) and the hash completes; an erroring evaluation exits the process
with code 1. -/
theorem config_missing_degradation :
    (∀ (fs : Fs) (p : Platform) (rootDir : String) (vb : Bool),
      fs.expoEval rootDir = RawCfg.parsed none →
      (getAppJsonHash fs p rootDir vb).val = POut.ok "")
    ∧ (∀ (fs : Fs) (p : Platform) (rootDir : String) (vb : Bool),
      fs.expoEval rootDir = RawCfg.evalError →
      getAppJsonHash fs p rootDir vb = POut.exit 1)
    ∧ (∀ (fs : Fs) (p : Platform) (rootDir : String) (vb : Bool)
        (nmp : List String),
      fs.expoEval rootDir = RawCfg.parsed none →
      (getCurrentHash fs p (optsConfigOnly rootDir vb nmp)).val =
        POut.ok (hashIt (composeHashString "" "" [] ""))) := by
  refine ⟨?_, ?_, ?_⟩
  · intro fs p rootDir vb h
    simp [getAppJsonHash, readExpoConfig, h, POut.val]
  · intro fs p rootDir vb h
    simp [getAppJsonHash, readExpoConfig, h]
  · intro fs p rootDir vb nmp h
    simp [getCurrentHash, optsConfigOnly, getAppJsonHash, readExpoConfig, h,
      POut.bind, POut.val, composeHashString]

/-- Witness for the hypothesis-bearing parts of the C4 amended theorem. -/
theorem config_missing_degradation_witness :
    (getAppJsonHash fsNullConfig Platform.all "." false).val = POut.ok "" :=
  config_missing_degradation.1 fsNullConfig Platform.all "." false rfl

/-- C5: the per-platform digest is the digest of exactly the labeled
concatenation of the four components; byte-identical composed strings give
identical digests; and the digest is fixed-length lowercase hexadecimal. -/
theorem getCurrentHash_labeled_composition :
    (∀ (fs : Fs) (platform : Platform) (o : GenerateHashOptions)
       (lh ah ph : String) (ms : List Module)
       (llog alog mlog plog : List String),
      (if o.skipLocalNativeFolders.getD true then POut.ok ("", ([] : List String))
       else liftOpt (getFolderHash fs platform (o.rootDir.getD ".")
         (o.verbose.getD false))) = POut.ok (lh, llog) →
      (if o.skipAppJson.getD false then POut.ok ("", ([] : List String))
       else getAppJsonHash fs platform (o.rootDir.getD ".")
         (o.verbose.getD false)) = POut.ok (ah, alog) →
      (if o.skipNodeModules.getD false then POut.ok (([] : List Module), ([] : List String))
       else getModulesForPlatform fs platform (o.rootDir.getD ".")
         (o.verbose.getD false) o.nodeModulePaths) = POut.ok (ms, mlog) →
      (if o.skipLocalNativeFolders.getD true then POut.ok ("", ([] : List String))
       else liftOpt (getAppPluginHash fs "." (o.verbose.getD false)))
        = POut.ok (ph, plog) →
      (getCurrentHash fs platform o).val =
        POut.ok (hashIt (composeHashString ah lh
          (ms.map (getModuleIdentity platform)) ph)))
    ∧ (∀ c1 l1 i1 p1 c2 l2 i2 p2,
        composeHashString c1 l1 i1 p1 = composeHashString c2 l2 i2 p2 →
        hashIt (composeHashString c1 l1 i1 p1) = hashIt (composeHashString c2 l2 i2 p2))
    ∧ (∀ c l ids p, (hashIt (composeHashString c l ids p)).length = 32
        ∧ ∀ ch ∈ (hashIt (composeHashString c l ids p)).data, ch ∈ hexDigits) := by
  refine ⟨?_, ?_, ?_⟩
  · intro fs platform o lh ah ph ms llog alog mlog plog h1 h2 h3 h4
    simp only [getCurrentHash]
    rw [h1, h2, h3, h4]
    simp [POut.bind, POut.val]
  · intro c1 l1 i1 p1 c2 l2 i2 p2 h
    rw [h]
  · intro c l ids p
    exact ⟨hashIt_length _, hashIt_chars_hex _⟩

/-- Witness for the hypothesis-bearing part of the C5 theorem. -/
theorem getCurrentHash_labeled_composition_witness :
    (getCurrentHash fsEvalError Platform.all optsSkipAll).val =
      POut.ok (hashIt (composeHashString "" ""
        (List.map (getModuleIdentity Platform.all) []) "")) :=
  getCurrentHash_labeled_composition.1 fsEvalError Platform.all optsSkipAll
    "" "" "" [] [] [] [] [] rfl rfl rfl rfl

/-- The module record that `getModules` builds for the `axios` fixture. -/
def modAxios : Module :=
  { name := "axios", path := "app/node_modules/axios", version := "1.0.0",
    isNativeAndroid := false, isNativeIOS := false }

/-- The module record that `getModules` builds for the `Base64` fixture. -/
def modBase64 : Module :=
  { name := "Base64", path := "app/node_modules/Base64", version := "2.0.0",
    isNativeAndroid := false, isNativeIOS := false }

/-- A project with two installed packages, `axios` and `Base64` (a real npm
package name with an uppercase letter), discovered in that order. -/
def fsTwoPkgs : Fs :=
  { entries := fun p =>
      if p = "app/node_modules" then [("axios", .dir), ("Base64", .dir)] else [],
    readFile := fun _ => none,
    gitFiles := fun _ => [],
    pkgJson := fun p =>
      if p = "app/node_modules/axios" then some { version := "1.0.0" }
      else if p = "app/node_modules/Base64" then some { version := "2.0.0" }
      else none,
    expoEval := fun _ => .evalError }

/-- The same two packages discovered in the opposite order. -/
def fsTwoPkgsPermuted : Fs :=
  { fsTwoPkgs with entries := fun p =>
      if p = "app/node_modules" then [("Base64", .dir), ("axios", .dir)] else [] }

/-- C7 counterexample: `getModules` sorts with the `localeCompare` comparator,
which orders `axios` before `Base64`, whereas ascending ordinal (code-point)
order puts `Base64` (`B` = U+0042) before `axios` (`a` = U+0061): the
returned list is not sorted by ordinal comparison. -/
theorem getModules_locale_not_ordinal_counterexample :
    (getModules fsTwoPkgs "app" false ["node_modules"]).val =
      POut.ok [modAxios, modBase64]
    ∧ ¬ List.Sorted (fun a b : Module => ordinalLe a.name b.name = true)
        [modAxios, modBase64] := by
  constructor
  · decide
  · decide

/-- C7 amended: the returned list is sorted by the locale-aware
`localeCompare` comparator (which coincides with ordinal order on
all-lowercase alphanumeric names, but not in general); permuting the
discovery order never changes the sorted result as long as no two package
names are collation-equal. -/
theorem getModules_sorted_by_locale :
    (∀ (fs : Fs) (rootDir : String) (vb : Bool) (nmp : List String)
       (ms : List Module) (logs : List String),
      getModules fs rootDir vb nmp = POut.ok (ms, logs) → List.Sorted moduleLe ms)
    ∧ (∀ l1 l2 : List Module, l1.Perm l2 →
        (l1.map (fun m => collationKey m.name)).Nodup →
        sortModules l1 = sortModules l2)
    ∧ (∀ s t : String, isLowerAlnum s → isLowerAlnum t →
        localeLe s t = ordinalLe s t)
    ∧ (getModules fsTwoPkgs "app" false ["node_modules"]).val =
        (getModules fsTwoPkgsPermuted "app" false ["node_modules"]).val := by
  refine ⟨?_, ?_, ?_, ?_⟩
  · intro fs rootDir vb nmp ms logs h
    simp only [getModules] at h
    cases hlp : listPOut (fun dir => listPOut (scanEntry fs vb dir) (fs.names dir))
        (List.map (pathJoin rootDir) nmp) with
    | ok r =>
      rw [hlp] at h
      simp [POut.bind] at h
      rw [← h.1]
      exact sortModules_sorted _
    | exit n =>
      rw [hlp] at h
      simp [POut.bind] at h
    | crash =>
      rw [hlp] at h
      simp [POut.bind] at h
  · exact fun l1 l2 hp hnd => sortModules_perm_invariant hp hnd
  · exact fun s t hs ht => localeLe_eq_ordinalLe_of_lowerAlnum hs ht
  · decide

/-- Witness for the hypothesis-bearing parts of the C7 amended theorem. -/
theorem getModules_sorted_by_locale_witness :
    List.Sorted moduleLe [modAxios, modBase64] :=
  getModules_sorted_by_locale.1 fsTwoPkgs "app" false ["node_modules"]
    [modAxios, modBase64] [] (by decide)

/-- A library project: a manifest at `lib` with no checkpoint, no git-tracked
files, no native folders. -/
def fsLib : Fs :=
  { entries := fun _ => [],
    readFile := fun _ => none,
    gitFiles := fun _ => [],
    pkgJson := fun p => if p = "lib" then some { version := "1.0.0" } else none,
    expoEval := fun _ => .evalError }

/-- Runs `updateLibrary` twice in a row and returns the number of file
writes the second call performs. -/
def secondUpdateWrites (fs : Fs) (rootDir : String) : POut Nat :=
  (updateLibrary fs rootDir false).bind (fun r1 =>
    (updateLibrary r1.1 rootDir false).bind (fun r2 => POut.ok r2.2))

/-- C3 (code bug, evaluated at the failing input): after a first
`updateLibrary` writes the checkpoint, a second `updateLibrary` with no
intervening input change STILL performs a write (count 1, not 0), and
`verifyLibrary` right after an update reports `valueExists = true,
hasChanged = true`.  Cause: `verifyLibrary` computes the fresh hashes with
`skipLocalNativeFolders = false` (its own default, so the app-plugin digest
is the digest of the empty file set, not the empty string), while
`updateLibrary` writes hashes from a second `generateHashes` call that omits
`skipLocalNativeFolders`, so the `GENERATE_HASH_DEFAULTS` value `true`
applies and the stored checkpoint never matches the fresh value. -/
theorem updateLibrary_second_call_writes :
    secondUpdateWrites fsLib "lib" = POut.ok 1 ∧
    (updateLibrary fsLib "lib" false).bind (fun r => verifyLibrary r.1 "lib" false)
      = POut.ok (true, true) := by
  constructor
  · decide
  · decide

/-- Frame property of `updateLibrary` (the confirmed half of the update
contract): a run that writes nothing returns the state unchanged, and a run
that writes replaces only `nativeDependencyHash` in the manifest at
`rootDir`, preserving `version`, every other manifest field and every other
part of the state. -/
theorem updateLibrary_write_frame :
    ∀ (fs : Fs) (rootDir : String) (vb : Bool) (fs' : Fs) (w : Nat),
      updateLibrary fs rootDir vb = POut.ok (fs', w) →
      (w = 0 ∧ fs' = fs) ∨
      (w = 1 ∧ ∃ doc h, fs.pkgJson rootDir = some doc ∧
        fs'.pkgJson rootDir = some { doc with nativeDependencyHash := some h } ∧
        (∀ p, p ≠ rootDir → fs'.pkgJson p = fs.pkgJson p) ∧
        fs'.entries = fs.entries ∧ fs'.gitFiles = fs.gitFiles ∧
        fs'.expoEval = fs.expoEval) := by
  intro fs rootDir vb fs' w h
  unfold updateLibrary at h
  cases hv : verifyLibrary fs rootDir vb with
  | ok fl =>
    rw [hv] at h
    simp only [POut.bind] at h
    by_cases hcond : (fl.1 && !fl.2) = true
    · rw [if_pos hcond] at h
      simp at h
      left
      exact ⟨h.2.symm, h.1.symm⟩
    · rw [if_neg hcond] at h
      cases hg : generateHashes fs (updateLibraryGenOpts rootDir vb) with
      | ok hs =>
        rw [hg] at h
        simp only [POut.bind] at h
        cases hp : fs.pkgJson rootDir with
        | none => rw [hp] at h; simp at h
        | some prevJson =>
          rw [hp] at h
          simp at h
          right
          refine ⟨h.2.symm, prevJson,
            { ios := some hs.ios, android := some hs.android, all := some hs.all },
            rfl, ?_, ?_, ?_, ?_, ?_⟩
          · rw [← h.1]
            simp [writePkgJson]
          · intro p hne
            rw [← h.1]
            simp [writePkgJson, hne]
          · rw [← h.1]
            rfl
          · rw [← h.1]
            rfl
          · rw [← h.1]
            rfl
      | exit n => rw [hg] at h; simp [POut.bind] at h
      | crash => rw [hg] at h; simp [POut.bind] at h
  | exit n => rw [hv] at h; simp [POut.bind] at h
  | crash => rw [hv] at h; simp [POut.bind] at h

theorem val_bind_congr {α β : Type} {x y : POut (α × List String)}
    {f g : α × List String → POut (β × List String)}
    (h : x.val = y.val)
    (hfg : ∀ (a : α) (l l' : List String), (f (a, l)).val = (g (a, l')).val) :
    (x.bind f).val = (y.bind g).val := by
  cases x with
  | ok p =>
    cases y with
    | ok q =>
      cases p with
      | mk a l =>
        cases q with
        | mk b l2 =>
          simp [POut.val] at h
          subst h
          exact hfg a l l2
    | exit n => simp [POut.val] at h
    | crash => simp [POut.val] at h
  | exit n =>
    cases y with
    | ok q => simp [POut.val] at h
    | exit m =>
      simp [POut.val] at h
      subst h
      rfl
    | crash => simp [POut.val] at h
  | crash =>
    cases y with
    | ok q => simp [POut.val] at h
    | exit m => simp [POut.val] at h
    | crash => rfl

theorem hashFiles_fst (fs : Fs) (r : String) (ps : List String) (vb vb' : Bool) :
    (hashFiles fs r ps vb).map Prod.fst = (hashFiles fs r ps vb').map Prod.fst := by
  unfold hashFiles
  cases optMapM (fun fp => (fs.readFile (pathJoin r fp)).map
      (fun c => fp ++ "@" ++ hashIt c)) ps <;> rfl

theorem liftOpt_val_congr {α : Type} {o o' : Option (α × List String)}
    (h : o.map Prod.fst = o'.map Prod.fst) :
    (liftOpt o).val = (liftOpt o').val := by
  cases o with
  | none =>
    cases o' with
    | none => rfl
    | some q => simp at h
  | some p =>
    cases o' with
    | none => simp at h
    | some q =>
      simp at h
      simp [liftOpt, POut.val, h]

theorem getFolderHash_fst (fs : Fs) (p : Platform) (r : String) (vb vb' : Bool) :
    (getFolderHash fs p r vb).map Prod.fst = (getFolderHash fs p r vb').map Prod.fst := by
  unfold getFolderHash
  by_cases hn : hasNativeVersionFs fs p r
  · simp only [hn, Bool.not_true, Bool.false_eq_true, if_false]
    have hf := hashFiles_fst fs r ((fs.gitFiles r).filter (nativeFileFilter p)) vb vb'
    cases h1 : hashFiles fs r ((fs.gitFiles r).filter (nativeFileFilter p)) vb with
    | none =>
      cases h2 : hashFiles fs r ((fs.gitFiles r).filter (nativeFileFilter p)) vb' with
      | none => rfl
      | some q =>
        rw [h1, h2] at hf
        simp at hf
    | some q =>
      cases h2 : hashFiles fs r ((fs.gitFiles r).filter (nativeFileFilter p)) vb' with
      | none =>
        rw [h1, h2] at hf
        simp at hf
      | some q2 =>
        rw [h1, h2] at hf
        simp at hf
        cases q
        cases q2
        simp_all
  · simp [hn]

theorem getAppPluginHash_fst (fs : Fs) (r : String) (vb vb' : Bool) :
    (getAppPluginHash fs r vb).map Prod.fst = (getAppPluginHash fs r vb').map Prod.fst := by
  unfold getAppPluginHash
  exact hashFiles_fst fs r ((fs.gitFiles r).filter pluginFileFilter) vb vb'

theorem getAppJsonHash_val_verbose (fs : Fs) (p : Platform) (r : String) (vb vb' : Bool) :
    (getAppJsonHash fs p r vb).val = (getAppJsonHash fs p r vb').val := by
  unfold getAppJsonHash readExpoConfig
  cases fs.expoEval r with
  | evalError => rfl
  | parsed cfg => cases cfg <;> rfl

theorem listPOut_val_congr {α β : Type} {f g : α → POut (List β × List String)}
    (hfg : ∀ a, (f a).val = (g a).val) (l : List α) :
    (listPOut f l).val = (listPOut g l).val := by
  induction l with
  | nil => rfl
  | cons a as ih =>
    simp only [listPOut]
    apply val_bind_congr (hfg a)
    intro v lv lv'
    apply val_bind_congr ih
    intro w lw lw'
    rfl

theorem scanEntry_val_verbose (fs : Fs) (vb vb' : Bool) (dir rp : String) :
    (scanEntry fs vb dir rp).val = (scanEntry fs vb' dir rp).val := by
  unfold scanEntry
  by_cases h1 : jsStartsWith rp "."
  · simp [h1]
  · simp only [h1, Bool.false_eq_true, if_false]
    by_cases h2 : jsStartsWith rp "@"
    · simp only [h2, if_true]
      apply val_bind_congr
      · apply listPOut_val_congr
        intro s
        by_cases h3 : jsStartsWith s "."
        · simp [h3]
        · simp only [h3, Bool.false_eq_true, if_false]
          cases moduleOfPath fs (rp ++ "/" ++ s) (pathJoin (pathJoin dir rp) s) <;> rfl
      · intro a l l'
        rfl
    · simp only [h2, Bool.false_eq_true, if_false]

theorem getModules_val_verbose (fs : Fs) (rootDir : String) (vb vb' : Bool)
    (nmp : List String) :
    (getModules fs rootDir vb nmp).val = (getModules fs rootDir vb' nmp).val := by
  unfold getModules
  apply val_bind_congr
  · apply listPOut_val_congr
    intro dir
    exact listPOut_val_congr (fun rp => scanEntry_val_verbose fs vb vb' dir rp) _
  · intro a l l'
    rfl

theorem getModulesForPlatform_val_verbose (fs : Fs) (p : Platform)
    (rootDir : String) (vb vb' : Bool) (nmp : List String) :
    (getModulesForPlatform fs p rootDir vb nmp).val =
    (getModulesForPlatform fs p rootDir vb' nmp).val := by
  unfold getModulesForPlatform
  apply val_bind_congr (getModules_val_verbose fs rootDir vb vb' nmp)
  intro a l l'
  rfl

/-- C9: the `verbose` flag never influences the computed digest: for every
project state, platform and options, running `getCurrentHash` with
`verbose := true` and with `verbose := false` produces the same outcome up
to console output (byte-identical digest on success, same exit or crash
otherwise). -/
theorem getCurrentHash_verbose_invariant :
    ∀ (fs : Fs) (platform : Platform) (o : GenerateHashOptions),
      (getCurrentHash fs platform { o with verbose := some true }).val =
      (getCurrentHash fs platform { o with verbose := some false }).val := by
  intro fs platform o
  unfold getCurrentHash
  apply val_bind_congr
  · by_cases hs : o.skipLocalNativeFolders.getD true
    · simp [hs]
    · simp only [hs, Bool.false_eq_true, if_false]
      exact liftOpt_val_congr (getFolderHash_fst fs platform (o.rootDir.getD ".") true false)
  · intro a1 l1 l1'
    apply val_bind_congr
    · by_cases ha : o.skipAppJson.getD false
      · simp [ha]
      · simp only [ha, Bool.false_eq_true, if_false]
        exact getAppJsonHash_val_verbose fs platform (o.rootDir.getD ".") true false
    · intro a2 l2 l2'
      apply val_bind_congr
      · by_cases hm : o.skipNodeModules.getD false
        · simp [hm]
        · simp only [hm, Bool.false_eq_true, if_false]
          exact getModulesForPlatform_val_verbose fs platform (o.rootDir.getD ".")
            true false o.nodeModulePaths
      · intro a3 l3 l3'
        apply val_bind_congr
        · by_cases hs : o.skipLocalNativeFolders.getD true
          · simp [hs]
          · simp only [hs, Bool.false_eq_true, if_false]
            exact liftOpt_val_congr (getAppPluginHash_fst fs "." true false)
        · intro a4 l4 l4'
          rfl

end EndH
